import Mathlib

/-!
Verification of the ramemu RAM-machine emulator: a shallow embedding of the
parser (`src/parser.rs`), the statement model (`src/stmt.rs`), the register
store (`src/registers.rs`) and the execution engine (`src/ram.rs`), together
with theorems settling the specification claims.

Machine integers: the Rust code uses `i64` for register values and `isize` /
`usize` for literals and indices (64-bit host).  They are embedded as `Int` /
`Nat`, with an explicit two's-complement wrap for `i64` arithmetic and explicit
range checks where the Rust code performs fallible conversions.
-/

deriving instance DecidableEq for Except

namespace Ramemu

/-- Two's-complement wrap into the `i64` range, the release-mode semantics of
Rust `i64` addition, subtraction and multiplication. -/
def wrap64 (x : Int) : Int := (x + 2 ^ 63) % 2 ^ 64 - 2 ^ 63

/-- Rust `i64::checked_div`: `None` on division by zero and on the sole
overflowing case `i64::MIN / -1`; otherwise division truncating toward zero. -/
def checked_div (a b : Int) : Option Int :=
  if b = 0 ∨ (a = -(2 ^ 63) ∧ b = -1) then none else some (Int.tdiv a b)

/-- `stmt.rs`: a register operand, direct or indirect (`RegisterValue`). -/
inductive RegisterValue where
  | Direct : Nat → RegisterValue
  | Indirect : Nat → RegisterValue
deriving DecidableEq

/-- `stmt.rs`: a value operand (`Value`); `Pure` carries an `isize`. -/
inductive Value where
  | Pure : Int → Value
  | Register : RegisterValue → Value
deriving DecidableEq

/-- `program.rs`: `LabelId`, a dense label identifier (a `usize`). -/
abbrev LabelId := Nat

/-- `stmt.rs`: the opcode union (`Op`), including the source's spelling
`JumpGreatherZero`. -/
inductive Op where
  | Load : Value → Op
  | Store : RegisterValue → Op
  | Add : Value → Op
  | Sub : Value → Op
  | Mult : Value → Op
  | Div : Value → Op
  | Jump : LabelId → Op
  | JumpIfZero : LabelId → Op
  | JumpGreatherZero : LabelId → Op
  | Input : RegisterValue → Op
  | Output : Value → Op
  | Halt : Op
deriving DecidableEq

/-- `stmt.rs`: a statement, an opcode with its 1-based source line (`Stmt`). -/
structure Stmt where
  op : Op
  line : Nat
deriving DecidableEq

/-- Association-list update with the overwrite semantics of `HashMap::insert`:
an existing key keeps its position, a new key is appended. -/
def alSet {α : Type} : List (Nat × α) → Nat → α → List (Nat × α)
  | [], i, v => [(i, v)]
  | (j, w) :: rest, i, v =>
    if j = i then (j, v) :: rest else (j, w) :: alSet rest i v

/-- Association-list lookup, the `HashMap::get` counterpart. -/
def alGet? {α : Type} : List (Nat × α) → Nat → Option α
  | [], _ => none
  | (j, w) :: rest, i => if j = i then some w else alGet? rest i

/-- `registers.rs`: `Registers<i64>` as a sparse index-to-value store. -/
abbrev Registers := List (Nat × Int)

/-- `registers.rs` `Registers::get`: an unset register reads as zero. -/
def rget (rs : Registers) (i : Nat) : Int := (alGet? rs i).getD 0

/-- `registers.rs` `Registers::set`. -/
def rset (rs : Registers) (i : Nat) (v : Int) : Registers := alSet rs i v

/-- `errors/ram.rs`: `InterpretErrorKind`. -/
inductive InterpretErrorKind where
  | SegmentationFault
  | UnknownLabel
  | InvalidInput : String → InterpretErrorKind
  | InvalidLiteral
  | DivisionByZero
  | IOError
  | Halted
deriving DecidableEq

/-- `errors/ram.rs`: `InterpretError`, an error kind with its source line. -/
structure InterpretError where
  kind : InterpretErrorKind
  line : Nat
deriving DecidableEq

/-- `errors/parser.rs`: `InvalidArgument` (spelling from the source). -/
inductive InvalidArgument where
  | LabelIsNotValid
  | ArgumentIsRequired
  | ArgumentValueMustBeNumberic
  | PureArgumentIsNotAllowed
  | ArgumentIsNotValid
deriving DecidableEq

/-- `errors/parser.rs`: `ParseErrorKind`. -/
inductive ParseErrorKind where
  | LabelIsNotValid
  | UnsupportedSyntax
  | UnsupportedOpcode : String → ParseErrorKind
  | ArgumentIsRequired
  | ArgumentIsNotValid : InvalidArgument → ParseErrorKind
  | UnknownError
deriving DecidableEq

/-- `errors/parser.rs`: `ParseError`, a kind with its 1-based source line. -/
structure ParseError where
  kind : ParseErrorKind
  line : Nat
deriving DecidableEq

/-- Modelled from the spec: `Program` of the current snapshot (spec §3, §4.3) —
the resolved instruction sequence plus the `LabelId` → `CodeAddress` table —
whose source file is not present in the tree (only an older snapshot of
`program.rs` is); its shape is fixed by its callers in `parser.rs` and
`ram.rs`. -/
structure Program where
  instructions : List Stmt
  labels : List (Nat × Nat)
deriving DecidableEq

/-- Modelled from the spec: `Program::get`, bounds-checked instruction lookup
(spec §4.3). -/
def Program.get (p : Program) (index : Nat) : Option Stmt :=
  p.instructions.get? index

/-- Modelled from the spec: `Program::decode_label`, `none` when the label id
is unbound (spec §4.3). -/
def Program.decode_label (p : Program) (label : LabelId) : Option Nat :=
  alGet? p.labels label

/-- Rust `char::is_whitespace` restricted to the ASCII whitespace the test
programs use (space, tab, carriage return, newline). -/
def isWS (c : Char) : Bool := c.isWhitespace

/-- Rust `str::trim`: drop whitespace from both ends of the character list. -/
def trimChars (l : List Char) : List Char :=
  ((l.dropWhile isWS).reverse.dropWhile isWS).reverse

/-- Rust `str::split_once(':')`: split at the first colon, if any. -/
def splitOnceColon : List Char → Option (List Char × List Char)
  | [] => none
  | c :: rest =>
    if c = ':' then some ([], rest)
    else (splitOnceColon rest).map (fun p => (c :: p.1, p.2))

/-- Rust `source.split('#').next()`: the prefix before the first `#` (the whole
line when there is none). -/
def beforeHash : List Char → List Char
  | [] => []
  | c :: rest => if c = '#' then [] else c :: beforeHash rest

/-- Helper for `splitWS`: accumulate the current word (reversed) while
scanning. -/
def splitWSGo : List Char → List Char → List (List Char)
  | cur, [] => if cur.isEmpty then [] else [cur.reverse]
  | cur, c :: rest =>
    if isWS c then
      if cur.isEmpty then splitWSGo [] rest else cur.reverse :: splitWSGo [] rest
    else splitWSGo (c :: cur) rest

/-- Rust `str::split_whitespace`: the whitespace-separated words of a line. -/
def splitWS (l : List Char) : List (List Char) := splitWSGo [] l

/-- Digit run to a number: `none` when the list is empty or holds a non-digit
(ASCII digits only, as in Rust integer `FromStr`). -/
def digitsToNat? (l : List Char) : Option Nat :=
  if l.isEmpty ∨ ¬ l.all Char.isDigit then none
  else some (l.foldl (fun acc c => acc * 10 + (c.toNat - '0'.toNat)) 0)

/-- Rust `str::parse::<usize>()`: optional `+`, then ASCII digits, bounded by
`2 ^ 64`. -/
def parseUsize (l : List Char) : Option Nat :=
  let l := match l with
    | '+' :: rest => rest
    | _ => l
  match digitsToNat? l with
  | some n => if n < 2 ^ 64 then some n else none
  | none => none

/-- Rust `str::parse::<isize>()` (64-bit, identical to `i64`): optional sign,
ASCII digits, bounded by the two's-complement range. -/
def parseIsize (l : List Char) : Option Int :=
  match l with
  | '-' :: rest =>
    match digitsToNat? rest with
    | some n => if n ≤ 2 ^ 63 then some (-(n : Int)) else none
    | none => none
  | '+' :: rest =>
    match digitsToNat? rest with
    | some n => if n < 2 ^ 63 then some (n : Int) else none
    | none => none
  | _ =>
    match digitsToNat? l with
    | some n => if n < 2 ^ 63 then some (n : Int) else none
    | none => none

/-- `parser.rs` `is_valid_label`: first character ASCII alphabetic or `_`, all
characters ASCII alphanumeric or `_`. -/
def is_valid_label (label : List Char) : Bool :=
  match label with
  | [] => false
  | first :: _ =>
    (first.isAlpha || first = '_') &&
      label.all (fun c => c.isAlphanum || c = '_')

/-- `parser.rs` `parse_label`: split at the first colon; a colon with an
invalid prefix is `LabelIsNotValid`, no colon means no declaration. -/
def parse_label (source : List Char) :
    Except ParseErrorKind (Option (List Char)) × List Char :=
  match splitOnceColon source with
  | some (label, tail) =>
    if is_valid_label label then (.ok (some label), tail)
    else (.error .LabelIsNotValid, tail)
  | none => (.ok none, source)

/-- The parser's mutable `HashMap<String, LabelId>` of label-name ids. -/
abbrev LabelIds := List (String × Nat)

/-- Lookup in the label-id table. -/
def idsGet? : LabelIds → String → Option Nat
  | [], _ => none
  | (k, v) :: rest, s => if k = s then some v else idsGet? rest s

/-- `label_ids.entry(label).or_insert(LabelId(len))` with `len` the size of
the table before insertion: first-seen-order dense id allocation. -/
def labelEntry (ids : LabelIds) (label : String) : Nat × LabelIds :=
  match idsGet? ids label with
  | some id => (id, ids)
  | none => (ids.length, ids ++ [(label, ids.length)])

/-- `parser.rs` `parse_with_value`, final opcode dispatch: the wildcard arm is
unreachable in the source (callers pass only the listed mnemonics). -/
def valueOpFor (head : String) (arg : Value) : Except ParseErrorKind Op :=
  match head with
  | "LOAD" => .ok (.Load arg)
  | "OUTPUT" | "WRITE" => .ok (.Output arg)
  | "ADD" => .ok (.Add arg)
  | "SUB" => .ok (.Sub arg)
  | "MUL" | "MULT" => .ok (.Mult arg)
  | "DIV" => .ok (.Div arg)
  | _ => .error .UnknownError

/-- `parser.rs` `parse_with_value`: `=` then an `isize` gives `Pure`, `*` then
a `usize` gives `Register(Indirect)`, a bare `usize` gives `Register(Direct)`,
a failed numeric parse after a prefix is `ArgumentValueMustBeNumberic`, and
anything else is `ArgumentIsNotValid`. -/
def parse_with_value (head : String) (tail : List Char) :
    Except ParseErrorKind Op :=
  match tail with
  | '=' :: rest =>
    match parseIsize rest with
    | some n => valueOpFor head (.Pure n)
    | none => .error (.ArgumentIsNotValid .ArgumentValueMustBeNumberic)
  | '*' :: rest =>
    match parseUsize rest with
    | some n => valueOpFor head (.Register (.Indirect n))
    | none => .error (.ArgumentIsNotValid .ArgumentValueMustBeNumberic)
  | _ =>
    match parseUsize tail with
    | some n => valueOpFor head (.Register (.Direct n))
    | none => .error (.ArgumentIsNotValid .ArgumentIsNotValid)

/-- `parser.rs` `parse_with_register`, final opcode dispatch: the wildcard arm
is unreachable in the source. -/
def registerOpFor (opcode : String) (arg : RegisterValue) :
    Except ParseErrorKind Op :=
  match opcode with
  | "STORE" => .ok (.Store arg)
  | "INPUT" | "READ" => .ok (.Input arg)
  | _ => .error .UnknownError

/-- `parser.rs` `parse_with_register`: `*` then a `usize` gives `Indirect`, a
bare `usize` gives `Direct`, a `=`-prefixed token is
`PureArgumentIsNotAllowed`, anything else `ArgumentIsNotValid`. -/
def parse_with_register (opcode : String) (tail : List Char) :
    Except ParseErrorKind Op :=
  match tail with
  | '*' :: rest =>
    match parseUsize rest with
    | some n => registerOpFor opcode (.Indirect n)
    | none => .error (.ArgumentIsNotValid .ArgumentValueMustBeNumberic)
  | _ =>
    match parseUsize tail with
    | some n => registerOpFor opcode (.Direct n)
    | none =>
      match tail with
      | '=' :: _ => .error (.ArgumentIsNotValid .PureArgumentIsNotAllowed)
      | _ => .error (.ArgumentIsNotValid .ArgumentIsNotValid)

/-- `parser.rs` `parse_with_label_arg`: a valid label name is interned through
the shared id table; the table is unchanged on error. -/
def parse_with_label_arg (head : String) (tail : List Char) (ids : LabelIds) :
    Except ParseErrorKind Op × LabelIds :=
  if is_valid_label tail then
    let p := labelEntry ids (String.mk tail)
    match head with
    | "JUMP" | "JMP" => (.ok (.Jump p.1), p.2)
    | "JZ" | "JZERO" => (.ok (.JumpIfZero p.1), p.2)
    | "JGZ" | "JGTZ" => (.ok (.JumpGreatherZero p.1), p.2)
    | _ => (.error .UnknownError, p.2)
  else (.error .LabelIsNotValid, ids)

/-- `parser.rs` `ParsedLine`: the optional opcode and optional label
declaration of one line. -/
structure ParsedLine where
  op : Option Op
  label : Option Nat
deriving DecidableEq

/-- Body of `parse_line` after the label declaration was handled: strip the
comment, tokenize, and dispatch on the uppercased mnemonic. -/
def parseLineBody (source : List Char) (labelId : Option Nat)
    (ids : LabelIds) : Except ParseErrorKind ParsedLine × LabelIds :=
  let facts := splitWS (beforeHash source)
  match facts.get? 0, facts.get? 1, facts.get? 2 with
  | none, _, _ => (.ok ⟨none, labelId⟩, ids)
  | some _, _, some _ => (.error .UnsupportedSyntax, ids)
  | some head, tailTok, none =>
    let opcode := String.mk (head.map Char.toUpper)
    match opcode with
    | "LOAD" | "ADD" | "SUB" | "MULT" | "MUL" | "DIV" | "WRITE" | "OUTPUT" =>
      match tailTok with
      | none => (.error .ArgumentIsRequired, ids)
      | some tail =>
        ((parse_with_value opcode tail).map (fun op => ⟨some op, labelId⟩), ids)
    | "JUMP" | "JMP" | "JZ" | "JZERO" | "JGZ" | "JGTZ" =>
      match tailTok with
      | none => (.error .ArgumentIsRequired, ids)
      | some tail =>
        match parse_with_label_arg opcode tail ids with
        | (.ok op, ids2) => (.ok ⟨some op, labelId⟩, ids2)
        | (.error e, ids2) => (.error e, ids2)
    | "STORE" | "INPUT" | "READ" =>
      match tailTok with
      | none => (.error .ArgumentIsRequired, ids)
      | some tail =>
        ((parse_with_register opcode tail).map
          (fun op => ⟨some op, labelId⟩), ids)
    | "HALT" => (.ok ⟨some .Halt, labelId⟩, ids)
    | _ => (.error (.UnsupportedOpcode opcode), ids)

/-- `parser.rs` `parse_line`: trim, handle a leading label declaration (which
is interned into the shared table even when the rest of the line later
fails), then parse the instruction part. -/
def parse_line (source : List Char) (ids : LabelIds) :
    Except ParseErrorKind ParsedLine × LabelIds :=
  let source := trimChars source
  match parse_label source with
  | (.ok (some label), tail) =>
    let p := labelEntry ids (String.mk label)
    parseLineBody tail (some p.1) p.2
  | (.ok none, tail) => parseLineBody tail none ids
  | (.error _, _) => (.error .LabelIsNotValid, ids)

/-- Strip one trailing carriage return, as Rust `str::lines` does. -/
def stripCR (l : List Char) : List Char :=
  if l.getLast? = some '\r' then l.dropLast else l

/-- Split at every newline, keeping empty pieces. -/
def lineSplit : List Char → List Char → List (List Char)
  | cur, [] => [cur.reverse]
  | cur, c :: rest =>
    if c = '\n' then cur.reverse :: lineSplit [] rest
    else lineSplit (c :: cur) rest

/-- Rust `str::lines`: no line for the empty string, a trailing newline does
not create a final empty line, and each line loses one trailing `\r`. -/
def rustLines (s : String) : List (List Char) :=
  if s.data = [] then []
  else
    let parts := lineSplit [] s.data
    let parts := if s.data.getLast? = some '\n' then parts.dropLast else parts
    parts.map stripCR

/-- Loop of `parse`: processes numbered lines, accumulating the label-id
table, the label-address map (last declaration wins), the collected errors
and the emitted instructions. -/
def parseGo : List (Nat × List Char) → LabelIds → List (Nat × Nat) →
    List ParseError → List Stmt →
    List ParseError × List Stmt × List (Nat × Nat)
  | [], _, lmap, errs, instrs => (errs, instrs, lmap)
  | (line, src) :: rest, ids, lmap, errs, instrs =>
    match parse_line src ids with
    | (.error k, ids2) => parseGo rest ids2 lmap (errs ++ [⟨k, line⟩]) instrs
    | (.ok pl, ids2) =>
      let addr := instrs.length
      let instrs2 := match pl.op with
        | some op => instrs ++ [⟨op, line⟩]
        | none => instrs
      let lmap2 := match pl.label with
        | some l => alSet lmap l addr
        | none => lmap
      parseGo rest ids2 lmap2 errs instrs2

/-- `parser.rs` `parse`: parse every line (1-based numbering), collect all
errors, and return a `Program` only when no error occurred. -/
def parse (source : String) : Except (List ParseError) Program :=
  let numbered := (rustLines source).enum.map (fun p => (p.1 + 1, p.2))
  match parseGo numbered [] [] [] [] with
  | (errs, instrs, lmap) =>
    if errs.isEmpty then .ok ⟨instrs, lmap⟩ else .error errs

/-- `ram.rs` `Ram`: the engine state.  The boxed reader is embedded as the
list of input lines still to be read, the boxed writer as the text written so
far (stream-level I/O failures are outside the model, so the `IOError` arms
of the source are never taken). -/
structure Ram where
  program : Program
  registers : Registers
  pc : Nat
  line : Nat
  halt : Bool
  error : Option InterpretError
  reader : List String
  writer : String
deriving DecidableEq

/-- `ram.rs` `Ram::new`: `[0; 100].into()` registers, `pc = 0`, `line = 0`,
not halted, no error. -/
def Ram.new (program : Program) (reader : List String) : Ram :=
  { program := program
    registers := (List.range 100).map (fun i => (i, (0 : Int)))
    pc := 0
    line := 0
    halt := false
    error := none
    reader := reader
    writer := "" }

/-- Pointer-chasing loop of `ram.rs` `Ram::get::<N>`: each round reads the
current register and converts the `i64` value to an index, failing
`SegmentationFault` when it is negative. -/
def chase (s : Ram) : Nat → Nat → Except InterpretError Nat
  | 0, index => .ok index
  | k + 1, index =>
    let v := rget s.registers index
    if v < 0 then .error ⟨.SegmentationFault, s.line⟩
    else chase s k v.toNat

/-- `ram.rs` `Ram::get::<N>`: for `N = 0` the index itself converted
`usize → i64` (`InvalidLiteral` when it exceeds `i64::MAX`); otherwise chase
`N - 1` levels of indirection and read the final register. -/
def Ram.getN (s : Ram) (n : Nat) (index : Nat) : Except InterpretError Int :=
  match n with
  | 0 =>
    if (index : Int) ≤ 2 ^ 63 - 1 then .ok (index : Int)
    else .error ⟨.InvalidLiteral, s.line⟩
  | k + 1 =>
    match chase s k index with
    | .error e => .error e
    | .ok idx => .ok (rget s.registers idx)

/-- `ram.rs` `get_with_value`: `Pure` is the literal (the `isize → i64`
conversion always succeeds on the 64-bit host), `Direct` reads one register,
`Indirect` chases one level. -/
def get_with_value (s : Ram) (v : Value) : Except InterpretError Int :=
  match v with
  | .Pure n => .ok n
  | .Register (.Direct index) => s.getN 1 index
  | .Register (.Indirect index) => s.getN 2 index

/-- `ram.rs` `get_with_register`: `Direct` is the index itself, `Indirect`
reads the register holding the destination index. -/
def get_with_register (s : Ram) (r : RegisterValue) :
    Except InterpretError Int :=
  match r with
  | .Direct index => s.getN 0 index
  | .Indirect index => s.getN 1 index

/-- `ram.rs` `eval`: evaluate one statement on the state (with `line` set to
the statement's line first, as in the source), returning the mutated state
and either the next program counter or the error.  Register writes happen
only after every fallible operation of the opcode has succeeded, exactly as
in the source. -/
def evalStep (s0 : Ram) (stmt : Stmt) : Ram × Except InterpretError Nat :=
  let s := { s0 with line := stmt.line }
  let next_pc := s.pc + 1
  match stmt.op with
  | .Load v =>
    match get_with_value s v with
    | .error e => (s, .error e)
    | .ok x => ({ s with registers := rset s.registers 0 x }, .ok next_pc)
  | .Store r =>
    match get_with_register s r with
    | .error e => (s, .error e)
    | .ok v =>
      if v < 0 then (s, .error ⟨.SegmentationFault, s.line⟩)
      else
        ({ s with registers := rset s.registers v.toNat (rget s.registers 0) },
          .ok next_pc)
  | .Add v =>
    match get_with_value s v with
    | .error e => (s, .error e)
    | .ok x =>
      ({ s with registers := rset s.registers 0 (wrap64 (rget s.registers 0 + x)) },
        .ok next_pc)
  | .Sub v =>
    match get_with_value s v with
    | .error e => (s, .error e)
    | .ok x =>
      ({ s with registers := rset s.registers 0 (wrap64 (rget s.registers 0 - x)) },
        .ok next_pc)
  | .Mult v =>
    match get_with_value s v with
    | .error e => (s, .error e)
    | .ok x =>
      ({ s with registers := rset s.registers 0 (wrap64 (rget s.registers 0 * x)) },
        .ok next_pc)
  | .Div v =>
    match get_with_value s v with
    | .error e => (s, .error e)
    | .ok x =>
      match checked_div (rget s.registers 0) x with
      | none => (s, .error ⟨.DivisionByZero, s.line⟩)
      | some q => ({ s with registers := rset s.registers 0 q }, .ok next_pc)
  | .Jump label =>
    match s.program.decode_label label with
    | none => (s, .error ⟨.UnknownLabel, s.line⟩)
    | some a => (s, .ok a)
  | .JumpIfZero label =>
    if rget s.registers 0 = 0 then
      match s.program.decode_label label with
      | none => (s, .error ⟨.UnknownLabel, s.line⟩)
      | some a => (s, .ok a)
    else (s, .ok next_pc)
  | .JumpGreatherZero label =>
    if rget s.registers 0 > 0 then
      match s.program.decode_label label with
      | none => (s, .error ⟨.UnknownLabel, s.line⟩)
      | some a => (s, .ok a)
    else (s, .ok next_pc)
  | .Output v =>
    match get_with_value s v with
    | .error e => (s, .error e)
    | .ok x => ({ s with writer := s.writer ++ toString x }, .ok next_pc)
  | .Input r =>
    let input := (s.reader.head?).getD ""
    let s := { s with reader := s.reader.tail }
    match get_with_register s r with
    | .error e => (s, .error e)
    | .ok v =>
      if v < 0 then (s, .error ⟨.SegmentationFault, s.line⟩)
      else
        match parseIsize (trimChars input.data) with
        | none =>
          (s, .error ⟨.InvalidInput (String.mk (trimChars input.data)), s.line⟩)
        | some x =>
          ({ s with registers := rset s.registers v.toNat x }, .ok next_pc)
  | .Halt => ({ s with halt := true }, .ok next_pc)

/-- `ram.rs` `eval_current`: fail `Halted` if halted, `SegmentationFault` if
the program counter is out of bounds, otherwise evaluate the fetched
statement. -/
def eval_current (s : Ram) : Ram × Except InterpretError Nat :=
  if s.halt then (s, .error ⟨.Halted, s.line⟩)
  else
    match s.program.get s.pc with
    | none => (s, .error ⟨.SegmentationFault, s.line⟩)
    | some stmt => evalStep s stmt

/-- `ram.rs` `Ram::step`: on success store the next program counter; on
failure record the error and set the halt flag. -/
def step (s : Ram) : Ram × Except InterpretError Unit :=
  match eval_current s with
  | (s2, .ok next_pc) => ({ s2 with pc := next_pc }, .ok ())
  | (s2, .error e) => ({ s2 with error := some e, halt := true }, .error e)

/-- `ram.rs` `Ram::get_error` accessor. -/
def get_error (s : Ram) : Option InterpretError := s.error

/-- `n` consecutive `step` calls, keeping only the state. -/
def stepN : Nat → Ram → Ram
  | 0, s => s
  | n + 1, s => stepN n (step s).1

/-- `ram.rs` `Ram::run` (`while !self.halt { self.step()? }`) with explicit
fuel: `none` when the loop has not finished within `fuel` iterations. -/
def runFuel : Nat → Ram → Option (Ram × Except InterpretError Unit)
  | 0, s => if s.halt then some (s, .ok ()) else none
  | n + 1, s =>
    if s.halt then some (s, .ok ())
    else
      match step s with
      | (s2, .ok _) => runFuel n s2
      | (s2, .error e) => some (s2, .error e)

/-- `ram.rs` `RamState`: the snapshot yielded by the iterator (no streams). -/
structure RamState where
  program : Program
  registers : Registers
  pc : Nat
  line : Nat
  halt : Bool
  error : Option InterpretError
deriving DecidableEq

/-- `ram.rs` `From<&mut Ram> for RamState`. -/
def RamState.ofRam (s : Ram) : RamState :=
  ⟨s.program, s.registers, s.pc, s.line, s.halt, s.error⟩

/-- `ram.rs` `Iterator for Ram`: step, drop the result on failure, and yield
a snapshot only when the machine did not halt. -/
def Ram.next (s : Ram) : Option (RamState × Ram) :=
  match step s with
  | (s2, .ok _) => if s2.halt then none else some (RamState.ofRam s2, s2)
  | (_, .error _) => none

theorem chase_err (s : Ram) :
    ∀ k i e, chase s k i = .error e → e = ⟨.SegmentationFault, s.line⟩ := by
  intro k
  induction k with
  | zero => intro i e h; simp [chase] at h
  | succ k ih =>
    intro i e h
    simp only [chase] at h
    split at h
    · simp only [Except.error.injEq] at h
      exact h.symm
    · exact ih _ _ h

theorem getN_err (s : Ram) (n i : Nat) (e : InterpretError)
    (h : s.getN n i = .error e) : e.kind ≠ .Halted := by
  cases n with
  | zero =>
    simp only [Ram.getN] at h
    split at h
    · simp at h
    · simp only [Except.error.injEq] at h
      subst h
      simp
  | succ k =>
    simp only [Ram.getN] at h
    split at h
    · rename_i e2 heq
      simp only [Except.error.injEq] at h
      subst h
      have := chase_err s k i e2 heq
      subst this
      simp
    · simp at h

theorem gwv_err (s : Ram) (v : Value) (e : InterpretError)
    (h : get_with_value s v = .error e) : e.kind ≠ .Halted := by
  cases v with
  | Pure n => simp [get_with_value] at h
  | Register r =>
    cases r with
    | Direct i => exact getN_err s 1 i e h
    | Indirect i => exact getN_err s 2 i e h

theorem gwr_err (s : Ram) (r : RegisterValue) (e : InterpretError)
    (h : get_with_register s r = .error e) : e.kind ≠ .Halted := by
  cases r with
  | Direct i => exact getN_err s 0 i e h
  | Indirect i => exact getN_err s 1 i e h
theorem evalStep_inv (s : Ram) (stmt : Stmt) :
    (evalStep s stmt).1.error = s.error ∧
    (evalStep s stmt).1.pc = s.pc ∧
    (evalStep s stmt).1.program = s.program ∧
    (∀ e, (evalStep s stmt).2 = .error e →
      (evalStep s stmt).1.registers = s.registers ∧
      (evalStep s stmt).1.halt = s.halt ∧ e.kind ≠ .Halted) := by
  obtain ⟨op, line⟩ := stmt
  cases op with
  | Load v =>
    rcases hg : get_with_value { s with line := line } v with e2 | x <;>
      simp_all [evalStep]
    exact gwv_err _ v _ hg
  | Store r =>
    rcases hg : get_with_register { s with line := line } r with e2 | x <;>
      simp_all [evalStep]
    · exact gwr_err _ r _ hg
    · split <;> simp_all
  | Add v =>
    rcases hg : get_with_value { s with line := line } v with e2 | x <;>
      simp_all [evalStep]
    exact gwv_err _ v _ hg
  | Sub v =>
    rcases hg : get_with_value { s with line := line } v with e2 | x <;>
      simp_all [evalStep]
    exact gwv_err _ v _ hg
  | Mult v =>
    rcases hg : get_with_value { s with line := line } v with e2 | x <;>
      simp_all [evalStep]
    exact gwv_err _ v _ hg
  | Div v =>
    rcases hg : get_with_value { s with line := line } v with e2 | x <;>
      simp_all [evalStep]
    · exact gwv_err _ v _ hg
    · rcases hd : checked_div (rget s.registers 0) x with _ | q <;> simp_all
  | Jump label =>
    rcases hd : Program.decode_label s.program label with _ | a <;>
      simp_all [evalStep]
  | JumpIfZero label =>
    simp only [evalStep]
    split
    · split <;> simp_all
    · simp_all
  | JumpGreatherZero label =>
    simp only [evalStep]
    split
    · split <;> simp_all
    · simp_all
  | Output v =>
    rcases hg : get_with_value { s with line := line } v with e2 | x <;>
      simp_all [evalStep]
    exact gwv_err _ v _ hg
  | Input r =>
    rcases hg : get_with_register
        { s with line := line, reader := s.reader.tail } r with e2 | x <;>
      simp_all [evalStep]
    · exact gwr_err _ r _ hg
    · split <;> simp_all
      split <;> simp_all
  | Halt => simp [evalStep]
theorem eval_current_inv (s : Ram) :
    (eval_current s).1.error = s.error ∧
    (eval_current s).1.pc = s.pc ∧
    (∀ e, (eval_current s).2 = .error e →
      (eval_current s).1.registers = s.registers ∧
      (eval_current s).1.halt = s.halt) ∧
    (∀ e, s.halt = false → (eval_current s).2 = .error e →
      e.kind ≠ .Halted) := by
  unfold eval_current
  split
  · simp_all
  · split
    · simp_all
    · rename_i stmt heq
      obtain ⟨h1, h2, _, h4⟩ := evalStep_inv s stmt
      exact ⟨h1, h2, fun e he => ⟨(h4 e he).1, (h4 e he).2.1⟩,
        fun e _ he => (h4 e he).2.2⟩

theorem step_err (s : Ram) (e : InterpretError)
    (h : (step s).2 = .error e) :
    (step s).1.registers = s.registers ∧ (step s).1.pc = s.pc ∧
    (step s).1.halt = true ∧ (step s).1.error = some e := by
  obtain ⟨h1, h2, h3, _⟩ := eval_current_inv s
  unfold step at h ⊢
  rcases he : eval_current s with ⟨s2, r⟩
  rw [he] at h h1 h2 h3
  cases r with
  | ok a => simp [he] at h
  | error e2 =>
    simp only [he] at h ⊢
    simp only [Except.error.injEq] at h
    subst h
    obtain ⟨hr, hh⟩ := h3 _ rfl
    simp_all

theorem step_err_kind (s : Ram) (e : InterpretError) (h0 : s.halt = false)
    (h : (step s).2 = .error e) : e.kind ≠ .Halted := by
  obtain ⟨_, _, _, h4⟩ := eval_current_inv s
  unfold step at h
  rcases he : eval_current s with ⟨s2, r⟩
  rw [he] at h h4
  cases r with
  | ok a => simp at h
  | error e2 =>
    simp only [Except.error.injEq] at h
    subst h
    exact h4 _ h0 rfl

theorem step_ok_error_eq (s : Ram) (h : (step s).2 = .ok ()) :
    (step s).1.error = s.error := by
  obtain ⟨h1, _, _, _⟩ := eval_current_inv s
  unfold step at h ⊢
  rcases he : eval_current s with ⟨s2, r⟩
  rw [he] at h h1
  cases r with
  | ok a => simpa using h1
  | error e2 => simp at h

theorem step_halted (s : Ram) (h : s.halt = true) :
    step s = ({ s with error := some ⟨.Halted, s.line⟩, halt := true },
      .error ⟨.Halted, s.line⟩) := by
  simp [step, eval_current, h]

/-- The one-instruction program produced by parsing `JUMP missing`. -/
def jumpMissingProgram : Program := ⟨[⟨.Jump 0, 1⟩], []⟩

/-- C1 counterexample: parsing `JUMP missing`, whose label `missing` is never
declared, does not fail with `LabelIsNotValid` — it returns a `Program`
(with an empty label table), so the claim's "no Program is returned" is
false. -/
theorem c1_counterexample :
    parse "JUMP missing" = .ok jumpMissingProgram := by decide

/-- C1 amended: the parser performs no declaredness validation; `JUMP missing`
parses successfully into a program whose label table is empty, and the
undeclared label is only caught at run time, when executing the jump fails
with `UnknownLabel` attributed to line 1 (and that error is recorded in the
engine). -/
theorem c1_undeclared_jump_runtime :
    parse "JUMP missing" = .ok jumpMissingProgram ∧
    jumpMissingProgram.decode_label 0 = none ∧
    (step (Ram.new jumpMissingProgram [])).2 = .error ⟨.UnknownLabel, 1⟩ ∧
    (step (Ram.new jumpMissingProgram [])).1.error = some ⟨.UnknownLabel, 1⟩ := by
  refine ⟨by decide, rfl, rfl, rfl⟩

/-- A concrete halted engine reached by running `HALT`, used as a witness. -/
def haltedRamW : Ram := (step (Ram.new ⟨[⟨.Halt, 1⟩], []⟩ [])).1

/-- C2: the halted state is terminal — after any number of further steps the
halt flag is still set, the registers and the diagnostic line are untouched,
and the next `step` call fails with the `Halted` error; no further step ever
succeeds. -/
theorem c2_halted_terminal (s : Ram) (n : Nat) (h : s.halt = true) :
    (stepN n s).halt = true ∧ (stepN n s).registers = s.registers ∧
    (stepN n s).line = s.line ∧
    (step (stepN n s)).2 = .error ⟨.Halted, s.line⟩ := by
  induction n generalizing s with
  | zero =>
    refine ⟨h, rfl, rfl, ?_⟩
    show (step s).2 = _
    rw [step_halted s h]
  | succ n ih =>
    have h1 := step_halted s h
    have h2 : (step s).1 = { s with error := some ⟨.Halted, s.line⟩, halt := true } := by
      rw [h1]
    have ih2 := ih { s with error := some ⟨.Halted, s.line⟩, halt := true } rfl
    simpa [stepN, h2] using ih2

/-- C2 witness: a concrete halted engine; two further steps keep it halted
with unchanged registers, and the next step still fails with `Halted`. -/
theorem c2_halted_terminal_witness :
    (stepN 2 haltedRamW).halt = true ∧
    (stepN 2 haltedRamW).registers = haltedRamW.registers ∧
    (stepN 2 haltedRamW).line = haltedRamW.line ∧
    (step (stepN 2 haltedRamW)).2 = .error ⟨.Halted, haltedRamW.line⟩ :=
  c2_halted_terminal haltedRamW 2 rfl

/-- C4 (code bug exhibit): the pure comment line `# note: x` is empty after
comment stripping and trimming, yet parsing it fails with `LabelIsNotValid`
on line 1 — `parse_line` splits on `:` before stripping the `#` comment, so a
colon inside a comment is treated as a (bad) label declaration, contradicting
the documented behavior that comment lines are skipped. -/
theorem c4_comment_with_colon_fails :
    trimChars (beforeHash "# note: x".data) = [] ∧
    parse "# note: x" = .error [⟨.LabelIsNotValid, 1⟩] := by decide

/-- C5 counterexample: the value operand `=-5` is accepted, not rejected —
`parse_with_value` parses the remainder after `=` as a signed `isize`, so
`LOAD =-5` yields `Pure (-5)` both at the token level and through `parse`. -/
theorem c5_counterexample :
    parse_with_value "LOAD" "=-5".data = .ok (.Load (.Pure (-5))) ∧
    parse "LOAD =-5" = .ok ⟨[⟨.Load (.Pure (-5)), 1⟩], []⟩ := by decide

/-- C5 amended: for a token starting with `=`, the remainder must parse as a
signed 64-bit integer (optional sign, ASCII digits, within the `isize`
range): on success the operand is `Pure n` (dispatched to the value-opcode at
hand), on failure the token is rejected with
`ArgumentIsNotValid (ArgumentValueMustBeNumberic)`. -/
theorem c5_pure_operand_signed (head : String) (rest : List Char) :
    parse_with_value head ('=' :: rest) =
      (parseIsize rest).elim
        (.error (.ArgumentIsNotValid .ArgumentValueMustBeNumberic))
        (fun n => valueOpFor head (.Pure n)) := by
  simp only [parse_with_value]
  cases parseIsize rest <;> simp

/-- A fresh engine whose single instruction divides by zero at source line 5,
used to exhibit the diagnostic-line change of a failing step. -/
def divZeroLine5Ram : Ram := Ram.new ⟨[⟨.Div (.Pure 0), 5⟩], []⟩ []

/-- C6 counterexample: a failing step changes more than the halt flag and the
stored error — the diagnostic `line` field also changes (from 0 to the failing
statement's line 5), so "only the halt flag and the stored error change" is
false. -/
theorem c6_counterexample :
    (step divZeroLine5Ram).2 = .error ⟨.DivisionByZero, 5⟩ ∧
    divZeroLine5Ram.line = 0 ∧ (step divZeroLine5Ram).1.line = 5 := by decide

/-- C6 amended: a failing step is atomic on the register store and the
program counter — they hold exactly their prior values, the halt flag is set
and the error is recorded (while the diagnostic line, and for `Input` the
consumed input line, may additionally change); no opcode's register effects
are partially applied. -/
theorem c6_step_error_atomic (s : Ram) (e : InterpretError)
    (h : (step s).2 = .error e) :
    (step s).1.registers = s.registers ∧ (step s).1.pc = s.pc ∧
    (step s).1.halt = true ∧ (step s).1.error = some e :=
  step_err s e h

/-- C6 witness: the atomicity theorem applied to the concrete division by
zero at line 5. -/
theorem c6_step_error_atomic_witness :
    (step divZeroLine5Ram).1.registers = divZeroLine5Ram.registers ∧
    (step divZeroLine5Ram).1.pc = divZeroLine5Ram.pc ∧
    (step divZeroLine5Ram).1.halt = true ∧
    (step divZeroLine5Ram).1.error = some ⟨.DivisionByZero, 5⟩ :=
  c6_step_error_atomic divZeroLine5Ram ⟨.DivisionByZero, 5⟩ (by decide)

/-- An engine about to execute `LOAD *2` with register 2 holding 5 and
register 5 holding 42. -/
def indirRam : Ram :=
  let base := Ram.new ⟨[⟨.Load (.Register (.Indirect 2)), 1⟩], []⟩ []
  { base with registers := rset (rset base.registers 2 5) 5 42 }

/-- An engine whose register 0 holds a negative value, for the
`SegmentationFault` side of indirect resolution. -/
def negIndirRam : Ram :=
  let base := Ram.new ⟨[⟨.Load (.Register (.Indirect 0)), 1⟩], []⟩ []
  { base with registers := rset base.registers 0 (-1) }

/-- C7: indirect operand resolution — `Register (Indirect i)` resolves to
`registers.get (registers.get i)` when the inner value is non-negative and
fails with `SegmentationFault` when it is negative; in particular, with
register 2 holding 5 and register 5 holding 42, `LOAD *2` succeeds and sets
the accumulator to 42. -/
theorem c7_indirect_resolution (s : Ram) (i : Nat) :
    (0 ≤ rget s.registers i →
      get_with_value s (.Register (.Indirect i)) =
        .ok (rget s.registers (rget s.registers i).toNat)) ∧
    (rget s.registers i < 0 →
      get_with_value s (.Register (.Indirect i)) =
        .error ⟨.SegmentationFault, s.line⟩) ∧
    rget indirRam.registers 2 = 5 ∧ rget indirRam.registers 5 = 42 ∧
    (step indirRam).2 = .ok () ∧ rget (step indirRam).1.registers 0 = 42 := by
  refine ⟨?_, ?_, by decide, by decide, by decide, by decide⟩
  · intro h
    simp [get_with_value, Ram.getN, chase, not_lt.mpr h]
  · intro h
    simp [get_with_value, Ram.getN, chase, h]

/-- C7 witness: both resolution branches at concrete engines — the example
state resolves `*2` to 42, and a negative inner register segfaults. -/
theorem c7_indirect_resolution_witness :
    get_with_value indirRam (.Register (.Indirect 2)) =
      .ok (rget indirRam.registers (rget indirRam.registers 2).toNat) ∧
    get_with_value negIndirRam (.Register (.Indirect 0)) =
      .error ⟨.SegmentationFault, negIndirRam.line⟩ :=
  ⟨(c7_indirect_resolution indirRam 2).1 (by decide),
    (c7_indirect_resolution negIndirRam 0).2.1 (by decide)⟩

/-- A fresh engine whose single instruction divides by zero at source line 7,
the C9 witness scenario. -/
def divZeroLine7Ram : Ram := Ram.new ⟨[⟨.Div (.Pure 0), 7⟩], []⟩ []

/-- C9: once a step fails with some error `E` (never of kind `Halted` from a
running state), calling `step` again fails with the `Halted` error and
overwrites the stored error, so `get_error` afterwards returns the `Halted`
error instead of `E`. -/
theorem c9_error_overwritten (s : Ram) (e : InterpretError)
    (h0 : s.halt = false) (h : (step s).2 = .error e) :
    (step (step s).1).2 = .error ⟨.Halted, (step s).1.line⟩ ∧
    get_error (step (step s).1).1 = some ⟨.Halted, (step s).1.line⟩ ∧
    e.kind ≠ .Halted ∧
    (⟨.Halted, (step s).1.line⟩ : InterpretError) ≠ e := by
  have h1 := step_err s e h
  have h2 := step_halted (step s).1 h1.2.2.1
  have hk := step_err_kind s e h0 h
  refine ⟨?_, ?_, hk, fun heq => hk (by rw [← heq])⟩
  · rw [h2]
  · rw [h2]
    rfl

/-- C9 witness: the overwrite theorem at the concrete division by zero on
line 7. -/
theorem c9_error_overwritten_witness :
    (step (step divZeroLine7Ram).1).2 =
      .error ⟨.Halted, (step divZeroLine7Ram).1.line⟩ ∧
    get_error (step (step divZeroLine7Ram).1).1 =
      some ⟨.Halted, (step divZeroLine7Ram).1.line⟩ ∧
    (⟨.DivisionByZero, 7⟩ : InterpretError).kind ≠ .Halted ∧
    (⟨.Halted, (step divZeroLine7Ram).1.line⟩ : InterpretError) ≠
      ⟨.DivisionByZero, 7⟩ :=
  c9_error_overwritten divZeroLine7Ram ⟨.DivisionByZero, 7⟩ rfl (by decide)

/-- An engine carrying a stale stored error while not halted, as produced by
`RamState::create_ram` from an old snapshot. -/
def staleErrorRam : Ram :=
  { Ram.new ⟨[⟨.Load (.Pure 1), 1⟩, ⟨.Halt, 2⟩], []⟩ [] with
      error := some ⟨.DivisionByZero, 3⟩ }

/-- C10 counterexample: the iterator can yield a snapshot whose `error` is
recorded — an engine reconstructed with a stale stored error and `halt =
false` steps successfully and yields a snapshot still carrying that error,
so "every yielded `RamState` has `error == None`" is false. -/
theorem c10_counterexample :
    (Ram.next staleErrorRam).map (fun p => (p.1.halt, p.1.error)) =
      some (false, some ⟨.DivisionByZero, 3⟩) := by decide

/-- C10 amended: every snapshot the iterator yields has `halt = false`, and
its `error` equals the engine's stored error before the call — in particular
`none` for any engine that started from `Ram::new` (whose error only ever
becomes `some` on a failing step, after which the iterator yields nothing). -/
theorem c10_next_yields_running (s : Ram) (st : RamState) (s2 : Ram)
    (h : Ram.next s = some (st, s2)) :
    st.halt = false ∧ st.error = s.error := by
  unfold Ram.next at h
  rcases hs : step s with ⟨s3, r⟩
  rw [hs] at h
  cases r with
  | error e => simp at h
  | ok u =>
    by_cases hh : s3.halt
    · simp [hh] at h
    · have hok : (step s).2 = .ok () := by rw [hs]
      have herr : s3.error = s.error := by
        have := step_ok_error_eq s hok
        rwa [hs] at this
      simp only [hh, if_neg, Bool.false_eq_true, ite_false] at h
      obtain ⟨h1, _⟩ := Prod.mk.injEq .. ▸ (Option.some.injEq .. ▸ h)
      subst h1
      exact ⟨by simpa using hh, herr⟩

/-- A fresh two-instruction engine for the C10 witness. -/
def freshIterRam : Ram := Ram.new ⟨[⟨.Load (.Pure 1), 1⟩, ⟨.Halt, 2⟩], []⟩ []

/-- C10 witness: the amended theorem at a fresh engine — the first yielded
snapshot is not halted and carries the fresh engine's `none` error. -/
theorem c10_next_yields_running_witness :
    (RamState.ofRam (step freshIterRam).1).halt = false ∧
    (RamState.ofRam (step freshIterRam).1).error = freshIterRam.error :=
  c10_next_yields_running freshIterRam (RamState.ofRam (step freshIterRam).1)
    (step freshIterRam).1 (by decide)

theorem step_div_pure (s : Ram) (b : Int) (ln : Nat)
    (h0 : s.halt = false)
    (hf : s.program.get s.pc = some ⟨.Div (.Pure b), ln⟩) :
    step s =
      match checked_div (rget s.registers 0) b with
      | some q =>
        ({ s with
            line := ln
            registers := rset s.registers 0 q
            pc := s.pc + 1 }, .ok ())
      | none =>
        ({ s with
            line := ln
            halt := true
            error := some ⟨.DivisionByZero, ln⟩ },
          .error ⟨.DivisionByZero, ln⟩) := by
  cases hcd : checked_div (rget s.registers 0) b <;>
    simp [step, eval_current, h0, hf, evalStep, get_with_value, hcd]
/-- The two-instruction program `LOAD =a; DIV =b` (lines 1 and 2). -/
def loadDivProgram (a b : Int) : Program :=
  ⟨[⟨.Load (.Pure a), 1⟩, ⟨.Div (.Pure b), 2⟩], []⟩

/-- C3 counterexample: with `a = i64::MIN` and `b = -1` — so `b ≠ 0` — the
`DIV` step does not leave `a / b` in the accumulator: `checked_div` reports
the overflowing quotient as `None` and the engine fails with
`DivisionByZero`. -/
theorem c3_counterexample :
    ((-1 : Int) ≠ 0) ∧
    (step (step (Ram.new (loadDivProgram (-(2 ^ 63)) (-1)) [])).1).2 =
      .error ⟨.DivisionByZero, 2⟩ := by decide

/-- C3 amended: for all integers `a` and `b` with `b ≠ 0`, except the single
overflowing pair `a = i64::MIN, b = -1` (which fails with `DivisionByZero`),
executing `LOAD =a` then `DIV =b` from a fresh engine succeeds and leaves the
truncating quotient of `a` by `b` in the accumulator; and whenever the `DIV`
operand resolves to 0 the step fails with `DivisionByZero`. -/
theorem c3_load_div (a b : Int) :
    (b ≠ 0 → ¬(a = -(2 ^ 63) ∧ b = -1) →
      (step (step (Ram.new (loadDivProgram a b) [])).1).2 = .ok () ∧
      rget (step (step (Ram.new (loadDivProgram a b) [])).1).1.registers 0 =
        Int.tdiv a b) ∧
    (b = 0 →
      (step (step (Ram.new (loadDivProgram a b) [])).1).2 =
        .error ⟨.DivisionByZero, 2⟩) := by
  have hM := step_div_pure (step (Ram.new (loadDivProgram a b) [])).1 b 2
    rfl rfl
  have hrg : rget (step (Ram.new (loadDivProgram a b) [])).1.registers 0 = a :=
    rfl
  rw [hrg] at hM
  constructor
  · intro hb hmin
    have hcd : checked_div a b = some (Int.tdiv a b) := by
      unfold checked_div
      rw [if_neg]
      rintro (h | h)
      · exact hb h
      · exact hmin h
    rw [hcd] at hM
    rw [hM]
    exact ⟨rfl, rfl⟩
  · intro hb0
    have hcd : checked_div a b = none := by
      unfold checked_div
      rw [if_pos (Or.inl hb0)]
    rw [hcd] at hM
    rw [hM]
/-- C3 witness: the amended theorem applied at `7 / 2 = 3` (truncating) and
at the zero divisor `5 / 0`. -/
theorem c3_load_div_witness :
    ((7 : Int) ≠ 0 ∧ ¬((7 : Int) = -(2 ^ 63) ∧ (2 : Int) = -1)) ∧
    ((step (step (Ram.new (loadDivProgram 7 2) [])).1).2 = .ok () ∧
      rget (step (step (Ram.new (loadDivProgram 7 2) [])).1).1.registers 0 =
        Int.tdiv 7 2) ∧
    (step (step (Ram.new (loadDivProgram 5 0) [])).1).2 =
      .error ⟨.DivisionByZero, 2⟩ :=
  ⟨⟨by decide, by decide⟩,
    (c3_load_div 7 2).1 (by decide) (by decide),
    (c3_load_div 5 0).2 rfl⟩

/-- The end-to-end source program of the spec's scenario. -/
def endToEndSource : String := "load =2\nadd =2\noutput 0\nhalt"

/-- The program the end-to-end source parses to. -/
def endToEndProgram : Program :=
  ⟨[⟨.Load (.Pure 2), 1⟩, ⟨.Add (.Pure 2), 2⟩,
    ⟨.Output (.Register (.Direct 0)), 3⟩, ⟨.Halt, 4⟩], []⟩

/-- C8: the four-instruction program parses as expected and, run to
completion from a fresh engine, terminates without error within four steps,
writes exactly the text `4`, leaves register 0 equal to 4, and ends halted
with no stored error. -/
theorem c8_end_to_end :
    parse endToEndSource = .ok endToEndProgram ∧
    (runFuel 8 (Ram.new endToEndProgram [])).map
        (fun p => (p.1.writer, rget p.1.registers 0, p.1.halt)) =
      some ("4", 4, true) ∧
    (runFuel 8 (Ram.new endToEndProgram [])).map
        (fun p => (p.1.error, p.2)) =
      some (none, .ok ()) := by decide

end Ramemu

